import Mathlib

/-!
Verification of the americanomanager tournament engine (`src/tournament.py`).

The Python engine is shallowly embedded as follows.  Team objects live on a
heap modelled as a total function `ℕ → Team` (a `ℕ` is a team's address); a
`Match` stores the addresses of its two teams, mirroring Python's non-owning
object references.  Mutating methods become functions from the old state to
the new state, preserving the source's statement order.  Python `float`
arithmetic on scores and rankings is modelled with `ℚ` (all constants in the
source are decimal literals); `datetime` instants are modelled as `ℕ` hours
and `timedelta(hours=1)` as `+ 1`.  `random.shuffle` is modelled by an
explicit shuffle parameter, hypothesised to permute its input.  A raised
Python exception is modelled with `PyErr`.
-/

namespace Americano

/-- Python exceptions raised by the engine: `ValueError` (raised explicitly
by `generate_round_robin_matches`) and `IndexError` (out-of-range list
subscript, e.g. `circle[0]` on an empty roster or `self.teams[2]` in
`get_prizes`), and `KeyError` (raised by
`pd.DataFrame([]).sort_values('Points', ...)` in `get_standings` when the
roster is empty, since an empty DataFrame has no `Points` column). -/
inductive PyErr where
  | valueError
  | indexError
  | keyError
deriving DecidableEq

/-- `Player.__init__` (tournament.py line 7): name and integer ranking
(1 is best).  The gender tag and database id play no role in any claim. -/
structure Player where
  name : String
  ranking : ℤ
deriving DecidableEq

/-- `Team.__init__` (tournament.py line 17): `average_ranking` is
`(player1.ranking + player2.ranking) / 2`; the source's `ranking` attribute
is an alias of `average_ranking`, so a single `ranking : ℚ` field models
both.  Counters `points`, `matches_played`, `matches_won` start at 0. -/
structure Team where
  ranking : ℚ
  points : ℚ
  matches_played : ℕ
  matches_won : ℕ
deriving DecidableEq

/-- Construction of a `Team` from two players (tournament.py line 18). -/
def mkTeam (p1 p2 : Player) : Team :=
  { ranking := ((p1.ranking : ℚ) + (p2.ranking : ℚ)) / 2
    points := 0
    matches_played := 0
    matches_won := 0 }

/-- `Match.__init__` (tournament.py line 32): two team references (heap
addresses), a court index, `winner = None`, `score = 0`. -/
structure Match where
  team1 : ℕ
  team2 : ℕ
  court : ℕ
  winner : Option ℕ
  score : ℚ
deriving DecidableEq

/-- `Match.play_match` (tournament.py lines 41-47), in source order:
`self.winner = winning_team`; `self.score = 1.0`;
`winning_team.matches_won += 1`; `winning_team.points += self.score`;
`self.team1.matches_played += 1`; `self.team2.matches_played += 1`.
The method performs no validation of `winning_team` and never raises. -/
def play_match (ts : ℕ → Team) (m : Match) (winning_team : ℕ) :
    (ℕ → Team) × Match :=
  let m2 : Match := { m with winner := some winning_team, score := 1 }
  let ts1 : ℕ → Team := fun i =>
    if i = winning_team then
      { ts i with matches_won := (ts i).matches_won + 1
                  points := (ts i).points + m2.score }
    else ts i
  let ts2 : ℕ → Team := fun i =>
    if i = m2.team1 then
      { ts1 i with matches_played := (ts1 i).matches_played + 1 }
    else ts1 i
  let ts3 : ℕ → Team := fun i =>
    if i = m2.team2 then
      { ts2 i with matches_played := (ts2 i).matches_played + 1 }
    else ts2 i
  (ts3, m2)

/-- `Match.calculate_score` (tournament.py lines 49-62).  Note the source
binds `higher_ranked`/`lower_ranked` from the *winner*, not from the actual
ranking values: if `winner == team1` then `higher_ranked = team2` and
`lower_ranked = team1`, else the other way round.  The bonus applies when
`lower_ranked.ranking < higher_ranked.ranking`, i.e. when the winner has the
numerically smaller (better) average ranking.  `play_match` never calls this
method. -/
def calculate_score (ts : ℕ → Team) (m : Match) : ℚ :=
  let higher_ranked : ℕ := if m.winner = some m.team1 then m.team2 else m.team1
  let lower_ranked : ℕ := if m.winner = some m.team1 then m.team1 else m.team2
  let base_points : ℚ := 1
  if (ts lower_ranked).ranking < (ts higher_ranked).ranking then
    let ranking_difference := (ts higher_ranked).ranking - (ts lower_ranked).ranking
    let bonus_multiplier := 1 + ranking_difference * (1 / 10)
    base_points * bonus_multiplier
  else
    base_points

/-- `Tournament.__init__` (tournament.py line 64): roster of team addresses,
flat match list, schedule as an insertion-ordered map from time slot to the
matches of that slot, optional start and end times. -/
structure Tournament where
  name : String
  num_courts : ℕ
  teams : List ℕ
  match_list : List Match  -- the source's `matches` attribute (`matches` is reserved in Lean)
  schedule : List (ℕ × List Match)
  start_time : Option ℕ
  end_time : Option ℕ
deriving DecidableEq

/-- `Tournament.add_team` (tournament.py line 75). -/
def add_team (t : Tournament) (team : ℕ) : Tournament :=
  { t with teams := t.teams ++ [team] }

/-- `Tournament.rotate_teams` (tournament.py lines 78-82):
`[teams[0]] + [teams[-1]] + teams[1:-1]` when more than two teams,
identity otherwise. -/
def rotate_teams (teams : List ℕ) : List ℕ :=
  if teams.length ≤ 2 then teams
  else teams.take 1 ++ teams.drop (teams.length - 1) ++
    (teams.drop 1).take (teams.length - 2)

/-- One round of the inner loop of `generate_round_robin_matches`
(tournament.py lines 102-105): for `i` in `range(num_teams // 2)` pair
`rotating_teams[i]` with `rotating_teams[-(i+1)]`, i.e. the element at
index `length - (i+1)`. -/
def rr_round (rotating_teams : List ℕ) (half : ℕ) : List (ℕ × ℕ) :=
  (List.range half).map fun i =>
    (rotating_teams.getD i 0,
     rotating_teams.getD (rotating_teams.length - (i + 1)) 0)

/-- The round loop of `generate_round_robin_matches` (tournament.py lines
100-108): emit a round's pairs, rotate, repeat `num_rounds` times,
accumulating into one flat list. -/
def rr_loop : ℕ → List ℕ → ℕ → List (ℕ × ℕ)
  | 0, _, _ => []
  | k + 1, rotating_teams, half =>
      rr_round rotating_teams half ++ rr_loop k (rotate_teams rotating_teams) half

/-- `Tournament.generate_round_robin_matches` (tournament.py lines 84-110):
raise `ValueError` for an odd roster; otherwise `circle = teams.copy()`,
`fixed_team = circle[0]` (an `IndexError` on an empty roster; the source
never uses `fixed_team` afterwards), `rotating_teams = circle[1:]`, and
`num_teams - 1` rounds of pairing and rotating. -/
def generate_round_robin_matches (teams : List ℕ) :
    Except PyErr (List (ℕ × ℕ)) :=
  if teams.length % 2 ≠ 0 then .error .valueError
  else
    match teams with
    | [] => .error .indexError
    | _ :: rotating_teams =>
        .ok (rr_loop (teams.length - 1) rotating_teams (teams.length / 2))

/-- The list-slicing round split of `generate_schedule` (tournament.py lines
121-123): `[lst[i:i+k] for i in range(0, len(lst), k)]`, written with the
number of slice starts `⌈len/k⌉` made explicit. -/
def pychunks (k : ℕ) (l : List (ℕ × ℕ)) : List (List (ℕ × ℕ)) :=
  (List.range ((l.length + k - 1) / k)).map fun i => (l.drop (i * k)).take k

/-- Court assignment inside one round (tournament.py lines 129-138):
`available_courts = list(range(min(num_courts, len(round_matches))))`, then
each pairing in order takes the next court while one is available; pairings
beyond the court list are skipped.  Each surviving pairing becomes
`Match(match[0], match[1], court, None)`. -/
def assign_courts (num_courts : ℕ) (round_matches : List (ℕ × ℕ)) :
    List Match :=
  (round_matches.zip (List.range (min num_courts round_matches.length))).map
    fun pc => { team1 := pc.1.1, team2 := pc.1.2, court := pc.2,
                winner := none, score := 0 }

/-- The per-round scheduling loop of `generate_schedule` (tournament.py
lines 125-141): shuffle the round, assign courts, record the round under the
current time, advance the time by one hour (modelled as `+ 1`). -/
def schedule_rounds (num_courts : ℕ)
    (sh : List (ℕ × ℕ) → List (ℕ × ℕ)) :
    ℕ → List (List (ℕ × ℕ)) → List (ℕ × List Match)
  | _, [] => []
  | time, rd :: rest =>
      (time, assign_courts num_courts (sh rd)) ::
        schedule_rounds num_courts sh (time + 1) rest

/-- `Tournament.generate_schedule` (tournament.py lines 112-143).  The
source sets `self.start_time = start_time` *before* calling
`generate_round_robin_matches`, so that assignment persists even when
generation raises; on success the scheduled rounds are appended to
`self.matches` and `self.schedule` and `self.end_time` is the time after
the last round.  `sh` models `random.shuffle` applied to each round. -/
def generate_schedule (t : Tournament) (start_time : ℕ)
    (sh : List (ℕ × ℕ) → List (ℕ × ℕ)) : Tournament × Option PyErr :=
  let t1 := { t with start_time := some start_time }
  match generate_round_robin_matches t1.teams with
  | .error e => (t1, some e)
  | .ok matches_to_schedule =>
      let matches_per_round := t1.teams.length / 2
      let rounds := pychunks matches_per_round matches_to_schedule
      let slotted := schedule_rounds t1.num_courts sh start_time rounds
      ({ t1 with
          match_list := t1.match_list ++ (slotted.map Prod.snd).flatten
          schedule := t1.schedule ++ slotted
          end_time := some (start_time + rounds.length) }, none)

/-- One row of `Tournament.get_standings` (tournament.py lines 148-154);
the team label is represented by the team's heap address. -/
structure Row where
  team : ℕ
  points : ℚ
  matches_played : ℕ
  matches_won : ℕ
  win_rate : ℚ
deriving DecidableEq

/-- The row dictionary built for one team (tournament.py lines 148-154):
win rate is `matches_won / matches_played` when `matches_played > 0`,
else `0`. -/
def standings_row (ts : ℕ → Team) (i : ℕ) : Row :=
  { team := i
    points := (ts i).points
    matches_played := (ts i).matches_played
    matches_won := (ts i).matches_won
    win_rate :=
      if 0 < (ts i).matches_played then
        ((ts i).matches_won : ℚ) / ((ts i).matches_played : ℚ)
      else 0 }

/-- Insertion step of a points-descending sort, modelling
`df.sort_values('Points', ascending=False)` (tournament.py line 157). -/
def insert_desc (x : Row) : List Row → List Row
  | [] => [x]
  | y :: ys => if y.points < x.points then x :: y :: ys else y :: insert_desc x ys

/-- Points-descending sort of the standings rows (tournament.py line 157).
Only the multiset of rows matters to the claims; the relative order of
equal-points rows is not significant in the source either (pandas'
default sort is not stable). -/
def sort_desc : List Row → List Row
  | [] => []
  | x :: xs => insert_desc x (sort_desc xs)

/-- `Tournament.get_standings` (tournament.py lines 145-157): one row per
roster team, sorted by points descending by
`df.sort_values('Points', ascending=False)`.  On an empty roster the built
DataFrame is empty and has no `Points` column, so `sort_values` raises
`KeyError` before any row is produced. -/
def get_standings (ts : ℕ → Team) (roster : List ℕ) : Except PyErr (List Row) :=
  match roster with
  | [] => .error .keyError
  | _ => .ok (sort_desc (roster.map (standings_row ts)))

/-- The `Best Underdog` key (tournament.py line 166):
`x.matches_won / x.matches_played if x.matches_played > 0 else 0`. -/
def win_rate_key (t : Team) : ℚ :=
  if 0 < t.matches_played then (t.matches_won : ℚ) / (t.matches_played : ℚ)
  else 0

/-- Python's `min(iterable, key=...)` (tournament.py line 165): keep the
current best and replace it only when a later element's key is strictly
smaller, so the first minimal element wins ties; `None` models the
`ValueError` on an empty iterable. -/
def py_min_by (key : ℕ → ℚ) : List ℕ → Option ℕ
  | [] => none
  | x :: xs => some (xs.foldl (fun best y => if key y < key best then y else best) x)

/-- Python's `max(iterable, key=...)` (tournament.py line 166): replace the
current best only when a later element's key is strictly larger, so the
first maximal element wins ties. -/
def py_max_by (key : ℕ → ℚ) : List ℕ → Option ℕ
  | [] => none
  | x :: xs => some (xs.foldl (fun best y => if key best < key y then y else best) x)

/-- The prize mapping of `Tournament.get_prizes` (tournament.py lines
161-167), each category holding one team address. -/
structure Prizes where
  champion : ℕ
  runner_up : ℕ
  third_place : ℕ
  most_improved : ℕ
  best_underdog : ℕ
deriving DecidableEq

/-- `Tournament.get_prizes` (tournament.py lines 159-168): the method first
executes `standings = self.get_standings()` (line 160; the value is unused
but the call's `KeyError` on an empty roster propagates), then builds
`Champion = teams[0]`, `Runner-up = teams[1]`, `Third Place = teams[2]`
(roster order; an out-of-range subscript raises `IndexError`),
`Most Improved = min(teams, key=ranking)`,
`Best Underdog = max(teams, key=win rate)`. -/
def get_prizes (ts : ℕ → Team) (roster : List ℕ) : Except PyErr Prizes :=
  match get_standings ts roster with
  | .error e => .error e
  | .ok _ =>
    match roster.get? 0, roster.get? 1, roster.get? 2,
        py_min_by (fun i => (ts i).ranking) roster,
        py_max_by (fun i => win_rate_key (ts i)) roster with
    | some c, some ru, some tp, some mi, some bu =>
        .ok { champion := c, runner_up := ru, third_place := tp,
              most_improved := mi, best_underdog := bu }
    | _, _, _, _, _ => .error .indexError

/-- A fresh heap of teams whose counters are all zero, with average
rankings given by `r` — the state of a roster right after construction. -/
def init_heap (r : ℕ → ℚ) : ℕ → Team :=
  fun i => { ranking := r i, points := 0, matches_played := 0, matches_won := 0 }

/-- Running a sequence of `play_match` calls (match, declared winner)
against a heap of teams, threading the team state. -/
def run_plays (ts : ℕ → Team) (plays : List (Match × ℕ)) : ℕ → Team :=
  plays.foldl (fun h p => (play_match h p.1 p.2).1) ts

/-- The `Match` states reachable in the engine: freshly constructed by
`Match.__init__`, or the match component of a `play_match` call on a
reachable state. -/
inductive MatchReachable : Match → Prop where
  | init (t1 t2 c : ℕ) :
      MatchReachable { team1 := t1, team2 := t2, court := c, winner := none, score := 0 }
  | play (ts : ℕ → Team) (m : Match) (w : ℕ) :
      MatchReachable m → MatchReachable (play_match ts m w).2

/-- The property `first_min_at key l m`: `m` occurs in `l`, its key is a
minimum of the keys of `l`, and every element occurring before it in `l`
has a strictly larger key — i.e. `m` is the minimiser with ties broken by
iteration order, as Python's `min` picks it. -/
def first_min_at (key : ℕ → ℚ) (l : List ℕ) (m : ℕ) : Prop :=
  ∃ l1 l2, l = l1 ++ m :: l2 ∧ (∀ y ∈ l, key m ≤ key y) ∧ (∀ y ∈ l1, key m < key y)

/-- The property `first_max_at key l m`: `m` occurs in `l`, its key is a
maximum of the keys of `l`, and every element occurring before it in `l`
has a strictly smaller key — the maximiser with ties broken by iteration
order, as Python's `max` picks it. -/
def first_max_at (key : ℕ → ℚ) (l : List ℕ) (m : ℕ) : Prop :=
  ∃ l1 l2, l = l1 ++ m :: l2 ∧ (∀ y ∈ l, key y ≤ key m) ∧ (∀ y ∈ l1, key y < key m)

/-- An all-zero team heap, used as a concrete input by several witnesses. -/
def ts0 : ℕ → Team := fun _ => ⟨0, 0, 0, 0⟩

/-- The concrete match between teams 0 and 1 on court 0, used as a concrete
input by several witnesses. -/
def m01 : Match := ⟨0, 1, 0, none, 0⟩

/-! ## Basic facts about `play_match` -/

/-- The match component written by `play_match`: winner and score are set
together, all other fields are kept. -/
theorem play_match_snd (ts : ℕ → Team) (m : Match) (w : ℕ) :
    (play_match ts m w).2 = { m with winner := some w, score := 1 } := rfl

/-- Exact effect of one `play_match` call on every team on the heap. -/
theorem play_match_counters (ts : ℕ → Team) (m : Match) (w : ℕ) (i : ℕ) :
    ((play_match ts m w).1 i).matches_won
        = (ts i).matches_won + (if i = w then 1 else 0) ∧
    ((play_match ts m w).1 i).points
        = (ts i).points + (if i = w then 1 else 0) ∧
    ((play_match ts m w).1 i).matches_played
        = (ts i).matches_played + (if i = m.team1 then 1 else 0)
            + (if i = m.team2 then 1 else 0) ∧
    ((play_match ts m w).1 i).ranking = (ts i).ranking := by
  simp only [play_match]
  split_ifs <;> simp

/-- Single-field reading of `play_match_counters` for `matches_won`. -/
theorem play_match_matches_won (ts : ℕ → Team) (m : Match) (w i : ℕ) :
    ((play_match ts m w).1 i).matches_won
      = (ts i).matches_won + (if i = w then 1 else 0) :=
  (play_match_counters ts m w i).1

/-- Single-field reading of `play_match_counters` for `points`. -/
theorem play_match_points (ts : ℕ → Team) (m : Match) (w i : ℕ) :
    ((play_match ts m w).1 i).points
      = (ts i).points + (if i = w then 1 else 0) :=
  (play_match_counters ts m w i).2.1

/-- Single-field reading of `play_match_counters` for `matches_played`. -/
theorem play_match_matches_played (ts : ℕ → Team) (m : Match) (w i : ℕ) :
    ((play_match ts m w).1 i).matches_played
      = (ts i).matches_played + (if i = m.team1 then 1 else 0)
          + (if i = m.team2 then 1 else 0) :=
  (play_match_counters ts m w i).2.2.1

/-! ## Claims -/

/-- C1: the claim states that for an even roster of `N ≥ 2` teams,
`generate_round_robin_matches` yields `N-1` rounds of `N/2` pairings in
which every unordered pair of distinct teams appears exactly once, no team
is paired with itself, and the fixed first team plays in every round.  On a
roster of 4 teams `[0, 1, 2, 3]` the code instead pairs only the three
rotating teams: the output contains the self-pairings `(2, 2)` and `(3, 3)`,
repeats `(1, 3)` twice, and team `0` (the "fixed" team, which the source
assigns to the unused variable `fixed_team`) appears in no pairing at
all. -/
theorem c1_round_robin_defect :
    generate_round_robin_matches [0, 1, 2, 3] =
      Except.ok [(1, 3), (2, 2), (1, 2), (3, 3), (1, 3), (2, 2)] ∧
    ((2, 2) ∈ [((1 : ℕ), (3 : ℕ)), (2, 2), (1, 2), (3, 3), (1, 3), (2, 2)]) ∧
    (∀ p ∈ [((1 : ℕ), (3 : ℕ)), (2, 2), (1, 2), (3, 3), (1, 3), (2, 2)],
      p.1 ≠ 0 ∧ p.2 ≠ 0) := by
  refine ⟨by rfl, by decide, by decide⟩

/-- C2 counterexample: the claim states that `play_match` awards a winner
with average ranking 4.0 beating a team of average ranking 1.0 the
bonus-multiplied score 1.3.  With team 0 of ranking 1 and team 1 of
ranking 4, playing the match with winner 1 records score 1, not 13/10:
`play_match` assigns the flat base score unconditionally. -/
theorem c2_no_bonus_counterexample :
    ((play_match (fun i => if i = 0 then ⟨1, 0, 0, 0⟩ else ⟨4, 0, 0, 0⟩)
        ⟨0, 1, 0, none, 0⟩ 1).2).score = 1 ∧
    ((play_match (fun i => if i = 0 then ⟨1, 0, 0, 0⟩ else ⟨4, 0, 0, 0⟩)
        ⟨0, 1, 0, none, 0⟩ 1).2).score ≠ 13 / 10 := by
  refine ⟨rfl, ?_⟩
  show (1 : ℚ) ≠ 13 / 10
  norm_num

/-- C2 amended: `play_match` sets `match.score` to the flat base 1.0 for
every match and every declared winner; no ranking bonus is ever applied by
`play_match` (the ranking computation lives only in the never-called
`calculate_score`). -/
theorem c2_amended_flat_score (ts : ℕ → Team) (m : Match) (w : ℕ) :
    ((play_match ts m w).2).score = 1 ∧
    ((play_match ts m w).2).winner = some w := ⟨rfl, rfl⟩

/-- C3 counterexample: the claim states that `play_match` with a
non-participant winner fails and leaves all state unchanged.  With three
all-zero teams and a match between teams 0 and 1, declaring team 2 the
winner records team 2 as `winner` and bumps its counters: no validation
exists in the code. -/
theorem c3_no_validation_counterexample :
    ((play_match (fun _ => ⟨0, 0, 0, 0⟩) ⟨0, 1, 0, none, 0⟩ 2).2).winner = some 2 ∧
    ((play_match (fun _ => ⟨0, 0, 0, 0⟩) ⟨0, 1, 0, none, 0⟩ 2).1 2).matches_won = 1 ∧
    ((fun _ => (⟨0, 0, 0, 0⟩ : Team)) 2).matches_won = 0 := by
  refine ⟨rfl, by decide, rfl⟩

/-- C3 amended: `play_match` performs no participant validation.  For a
match between two distinct teams and a winner that is neither of them, the
call succeeds, records the outsider as `winner`, increments the outsider's
`matches_won` and `points`, and still increments `matches_played` of both
actual participants. -/
theorem c3_amended_no_validation (ts : ℕ → Team) (m : Match) (w : ℕ)
    (hw1 : w ≠ m.team1) (hw2 : w ≠ m.team2) :
    ((play_match ts m w).2).winner = some w ∧
    ((play_match ts m w).1 w).matches_won = (ts w).matches_won + 1 ∧
    ((play_match ts m w).1 w).points = (ts w).points + 1 ∧
    ((play_match ts m w).1 m.team1).matches_played
      = (ts m.team1).matches_played + (if m.team1 = m.team2 then 2 else 1) ∧
    ((play_match ts m w).1 m.team2).matches_played
      = (ts m.team2).matches_played + (if m.team2 = m.team1 then 2 else 1) := by
  obtain ⟨h1, h2, h3, -⟩ := play_match_counters ts m w w
  obtain ⟨-, -, h4, -⟩ := play_match_counters ts m w m.team1
  obtain ⟨-, -, h5, -⟩ := play_match_counters ts m w m.team2
  refine ⟨rfl, ?_, ?_, ?_, ?_⟩
  · rw [h1, if_pos rfl]
  · rw [h2, if_pos rfl]
  · rw [h4, if_pos rfl]
    by_cases h : m.team1 = m.team2 <;> simp [h, eq_comm]
  · rw [h5, if_pos rfl]
    by_cases h : m.team2 = m.team1 <;> simp [h, eq_comm]

/-- Witness for `c3_amended_no_validation` at the concrete counterexample
configuration. -/
theorem c3_amended_no_validation_witness :
    ((2 : ℕ) ≠ 0 ∧ (2 : ℕ) ≠ 1) ∧
    (((play_match (fun _ => ⟨0, 0, 0, 0⟩) ⟨0, 1, 0, none, 0⟩ 2).2).winner = some 2 ∧
     ((play_match (fun _ => ⟨0, 0, 0, 0⟩) ⟨0, 1, 0, none, 0⟩ 2).1 2).matches_won
       = ((fun _ => (⟨0, 0, 0, 0⟩ : Team)) 2).matches_won + 1 ∧
     ((play_match (fun _ => ⟨0, 0, 0, 0⟩) ⟨0, 1, 0, none, 0⟩ 2).1 2).points
       = ((fun _ => (⟨0, 0, 0, 0⟩ : Team)) 2).points + 1 ∧
     ((play_match (fun _ => ⟨0, 0, 0, 0⟩) ⟨0, 1, 0, none, 0⟩ 2).1
         (⟨0, 1, 0, none, 0⟩ : Match).team1).matches_played
       = ((fun _ => (⟨0, 0, 0, 0⟩ : Team)) (⟨0, 1, 0, none, 0⟩ : Match).team1).matches_played
         + (if (⟨0, 1, 0, none, 0⟩ : Match).team1 = (⟨0, 1, 0, none, 0⟩ : Match).team2
            then 2 else 1) ∧
     ((play_match (fun _ => ⟨0, 0, 0, 0⟩) ⟨0, 1, 0, none, 0⟩ 2).1
         (⟨0, 1, 0, none, 0⟩ : Match).team2).matches_played
       = ((fun _ => (⟨0, 0, 0, 0⟩ : Team)) (⟨0, 1, 0, none, 0⟩ : Match).team2).matches_played
         + (if (⟨0, 1, 0, none, 0⟩ : Match).team2 = (⟨0, 1, 0, none, 0⟩ : Match).team1
            then 2 else 1)) :=
  ⟨⟨by decide, by decide⟩,
   c3_amended_no_validation (fun _ => ⟨0, 0, 0, 0⟩) ⟨0, 1, 0, none, 0⟩ 2
     (by decide) (by decide)⟩

/-- C9: on every reachable `Match` state, `winner = none` implies
`score = 0`; a `play_match` call sets `winner` and `score` together in the
one operation, and afterwards `winner` is `some`, never reverting to
`none`. -/
theorem c9_match_invariant (m : Match) (hm : MatchReachable m) :
    (m.winner = none → m.score = 0) ∧
    (∀ (ts : ℕ → Team) (w : ℕ),
      ((play_match ts m w).2).winner = some w ∧
      ((play_match ts m w).2).score = 1 ∧
      ((play_match ts m w).2).winner ≠ none) := by
  induction hm with
  | init t1 t2 c => exact ⟨fun _ => rfl, fun ts w => ⟨rfl, rfl, by simp [play_match]⟩⟩
  | play ts0 m0 w0 _ _ =>
      refine ⟨fun h => ?_, fun ts w => ⟨rfl, rfl, by simp [play_match]⟩⟩
      simp [play_match] at h

/-- Witness for `c9_match_invariant`: the freshly constructed match between
teams 0 and 1 on court 0 is reachable, and the invariant holds there. -/
theorem c9_match_invariant_witness :
    (((⟨0, 1, 0, none, 0⟩ : Match).winner = none →
        (⟨0, 1, 0, none, 0⟩ : Match).score = 0) ∧
     (∀ (ts : ℕ → Team) (w : ℕ),
       ((play_match ts ⟨0, 1, 0, none, 0⟩ w).2).winner = some w ∧
       ((play_match ts ⟨0, 1, 0, none, 0⟩ w).2).score = 1 ∧
       ((play_match ts ⟨0, 1, 0, none, 0⟩ w).2).winner ≠ none)) :=
  c9_match_invariant ⟨0, 1, 0, none, 0⟩ (MatchReachable.init 0 1 0)

/-- C5: for a match between two distinct teams and a participant winner,
one `play_match` call increments the winner's `matches_won` by 1, adds the
match's (just set) `score` to the winner's `points`, and increments
`matches_played` of both participants by 1; a second call on the same
(played) match doubles all of these increments — the effects are not
idempotent. -/
theorem c5_counter_increments (ts : ℕ → Team) (m : Match) (w : ℕ)
    (hw : w = m.team1 ∨ w = m.team2) (h12 : m.team1 ≠ m.team2) :
    ((play_match ts m w).1 w).matches_won = (ts w).matches_won + 1 ∧
    ((play_match ts m w).1 w).points
      = (ts w).points + ((play_match ts m w).2).score ∧
    ((play_match ts m w).1 m.team1).matches_played
      = (ts m.team1).matches_played + 1 ∧
    ((play_match ts m w).1 m.team2).matches_played
      = (ts m.team2).matches_played + 1 ∧
    ((play_match (play_match ts m w).1 (play_match ts m w).2 w).1 w).matches_won
      = (ts w).matches_won + 2 ∧
    ((play_match (play_match ts m w).1 (play_match ts m w).2 w).1 w).points
      = (ts w).points + 2 * ((play_match ts m w).2).score ∧
    ((play_match (play_match ts m w).1 (play_match ts m w).2 w).1 m.team1).matches_played
      = (ts m.team1).matches_played + 2 ∧
    ((play_match (play_match ts m w).1 (play_match ts m w).2 w).1 m.team2).matches_played
      = (ts m.team2).matches_played + 2 := by
  have hs : ((play_match ts m w).2).score = 1 := rfl
  have hm1 : ((play_match ts m w).2).team1 = m.team1 := rfl
  have hm2 : ((play_match ts m w).2).team2 = m.team2 := rfl
  simp only [play_match_matches_won, play_match_points, play_match_matches_played,
    hs, hm1, hm2]
  rcases hw with rfl | rfl
  · simp [h12, Ne.symm h12]
    ring
  · simp [h12, Ne.symm h12]
    ring

/-- Witness for `c5_counter_increments` with the all-zero heap, the match
between teams 0 and 1, and winner 0. -/
theorem c5_counter_increments_witness :
    ((0 : ℕ) = m01.team1 ∨ (0 : ℕ) = m01.team2) ∧ m01.team1 ≠ m01.team2 ∧
    (((play_match ts0 m01 0).1 0).matches_won = (ts0 0).matches_won + 1 ∧
     ((play_match ts0 m01 0).1 0).points
       = (ts0 0).points + ((play_match ts0 m01 0).2).score ∧
     ((play_match ts0 m01 0).1 m01.team1).matches_played
       = (ts0 m01.team1).matches_played + 1 ∧
     ((play_match ts0 m01 0).1 m01.team2).matches_played
       = (ts0 m01.team2).matches_played + 1 ∧
     ((play_match (play_match ts0 m01 0).1 (play_match ts0 m01 0).2 0).1 0).matches_won
       = (ts0 0).matches_won + 2 ∧
     ((play_match (play_match ts0 m01 0).1 (play_match ts0 m01 0).2 0).1 0).points
       = (ts0 0).points + 2 * ((play_match ts0 m01 0).2).score ∧
     ((play_match (play_match ts0 m01 0).1 (play_match ts0 m01 0).2 0).1 m01.team1).matches_played
       = (ts0 m01.team1).matches_played + 2 ∧
     ((play_match (play_match ts0 m01 0).1 (play_match ts0 m01 0).2 0).1 m01.team2).matches_played
       = (ts0 m01.team2).matches_played + 2) :=
  ⟨Or.inl rfl, by decide,
   c5_counter_increments ts0 m01 0 (Or.inl rfl) (by decide)⟩

/-- C7 counterexample: the claim states that `generate_schedule` fails with
a validation error on an odd or empty roster leaving all state, including
the start time, unchanged.  On the odd roster `[0]` the call does fail with
`ValueError`, but `start_time` has already been overwritten from `none` to
the new start; and on the empty roster the failure is an `IndexError`
(from `circle[0]`), not the claimed validation error. -/
theorem c7_mutation_counterexample :
    (generate_schedule ⟨"t", 2, [0], [], [], none, none⟩ 5 id).2
      = some PyErr.valueError ∧
    (generate_schedule ⟨"t", 2, [0], [], [], none, none⟩ 5 id).1.start_time
      = some 5 ∧
    (⟨"t", 2, [0], [], [], none, none⟩ : Tournament).start_time = none ∧
    (generate_schedule ⟨"t", 2, [], [], [], none, none⟩ 5 id).2
      = some PyErr.indexError :=
  ⟨rfl, rfl, rfl, rfl⟩

/-- C7 amended: `generate_schedule` fails with `ValueError` when the roster
size is odd and with `IndexError` when the roster is empty; on such a
failure the schedule, the flat match list and the end time are unchanged,
but `start_time` has already been set to the new start value (the source
assigns it before generating). -/
theorem c7_amended_failure_state (t : Tournament) (start : ℕ)
    (sh : List (ℕ × ℕ) → List (ℕ × ℕ))
    (hbad : t.teams.length % 2 = 1 ∨ t.teams = []) :
    (generate_schedule t start sh).2
      = some (if t.teams.length % 2 = 1 then PyErr.valueError else PyErr.indexError) ∧
    (generate_schedule t start sh).1.schedule = t.schedule ∧
    (generate_schedule t start sh).1.match_list = t.match_list ∧
    (generate_schedule t start sh).1.end_time = t.end_time ∧
    (generate_schedule t start sh).1.start_time = some start := by
  rcases hbad with hodd | hempty
  · have hne : t.teams.length % 2 ≠ 0 := by omega
    simp [generate_schedule, generate_round_robin_matches, hne, hodd]
  · rcases t with ⟨n, c, teams, ml, sc, st, et⟩
    cases hempty
    simp [generate_schedule, generate_round_robin_matches]

/-- Witness for `c7_amended_failure_state` on the odd roster `[0]`. -/
theorem c7_amended_failure_state_witness :
    ((⟨"t", 2, [0], [], [], none, none⟩ : Tournament).teams.length % 2 = 1 ∨
      (⟨"t", 2, [0], [], [], none, none⟩ : Tournament).teams = []) ∧
    ((generate_schedule ⟨"t", 2, [0], [], [], none, none⟩ 7 id).2
       = some (if (⟨"t", 2, [0], [], [], none, none⟩ : Tournament).teams.length % 2 = 1
               then PyErr.valueError else PyErr.indexError) ∧
     (generate_schedule ⟨"t", 2, [0], [], [], none, none⟩ 7 id).1.schedule
       = (⟨"t", 2, [0], [], [], none, none⟩ : Tournament).schedule ∧
     (generate_schedule ⟨"t", 2, [0], [], [], none, none⟩ 7 id).1.match_list
       = (⟨"t", 2, [0], [], [], none, none⟩ : Tournament).match_list ∧
     (generate_schedule ⟨"t", 2, [0], [], [], none, none⟩ 7 id).1.end_time
       = (⟨"t", 2, [0], [], [], none, none⟩ : Tournament).end_time ∧
     (generate_schedule ⟨"t", 2, [0], [], [], none, none⟩ 7 id).1.start_time
       = some 7) :=
  ⟨Or.inl rfl,
   c7_amended_failure_state ⟨"t", 2, [0], [], [], none, none⟩ 7 id (Or.inl rfl)⟩

/-- C10 counterexample: the claim states that for every roster of fewer
than three teams, the empty roster included, `get_prizes` fails with an
out-of-range index (or empty-aggregate) error while selecting Champion,
Runner-up or Third Place.  On the empty roster the failure is instead the
`KeyError` raised by the pandas sort inside the `get_standings()` call at
the top of `get_prizes`, before any prize selection is reached. -/
theorem c10_empty_roster_counterexample :
    get_prizes ts0 [] = Except.error PyErr.keyError ∧
    get_prizes ts0 [] ≠ Except.error PyErr.indexError ∧
    get_standings ts0 [] = Except.error PyErr.keyError :=
  ⟨rfl, fun h => absurd (Except.error.inj h) (by decide), rfl⟩

/-- C10 amended: a roster of at least three teams is an undocumented
precondition of `get_prizes`: with fewer than three teams it never returns
a prize mapping.  On the empty roster it fails with the `KeyError` raised
inside the initial `get_standings()` call (before any prize selection); on
rosters of one or two teams it fails with the out-of-range `IndexError`
while selecting Runner-up or Third Place. -/
theorem c10_prizes_small_roster (ts : ℕ → Team) (roster : List ℕ)
    (h : roster.length < 3) :
    get_prizes ts roster
      = Except.error
          (if roster = [] then PyErr.keyError else PyErr.indexError) := by
  rcases roster with _ | ⟨a, _ | ⟨b, _ | ⟨c, r⟩⟩⟩
  · rfl
  · rfl
  · rfl
  · simp only [List.length_cons] at h
    omega

/-- Witness for `c10_prizes_small_roster` on the two-team roster
`[0, 1]`. -/
theorem c10_prizes_small_roster_witness :
    ([0, 1] : List ℕ).length < 3 ∧
    get_prizes ts0 [0, 1]
      = Except.error
          (if ([0, 1] : List ℕ) = [] then PyErr.keyError else PyErr.indexError) :=
  ⟨by decide, c10_prizes_small_roster ts0 [0, 1] (by decide)⟩

/-- One participant-winner `play_match` call preserves
`matches_won ≤ matches_played` for every team on the heap. -/
theorem play_match_won_le_played (ts : ℕ → Team) (m : Match) (w : ℕ)
    (hw : w = m.team1 ∨ w = m.team2)
    (hinv : ∀ i, (ts i).matches_won ≤ (ts i).matches_played) :
    ∀ i, ((play_match ts m w).1 i).matches_won
      ≤ ((play_match ts m w).1 i).matches_played := by
  intro i
  rw [play_match_matches_won, play_match_matches_played]
  have h := hinv i
  rcases hw with rfl | rfl <;> split_ifs <;> omega

/-- Any sequence of participant-winner `play_match` calls preserves
`matches_won ≤ matches_played` for every team on the heap. -/
theorem run_plays_won_le_played (plays : List (Match × ℕ)) :
    ∀ ts : ℕ → Team,
    (∀ p ∈ plays, p.2 = p.1.team1 ∨ p.2 = p.1.team2) →
    (∀ i, (ts i).matches_won ≤ (ts i).matches_played) →
    ∀ i, ((run_plays ts plays) i).matches_won
      ≤ ((run_plays ts plays) i).matches_played := by
  induction plays with
  | nil => intro ts _ hinv i; exact hinv i
  | cons p rest ih =>
      intro ts hp hinv i
      rw [run_plays, List.foldl_cons]
      exact ih _ (fun q hq => hp q (List.mem_cons_of_mem p hq))
        (play_match_won_le_played ts p.1 p.2 (hp p (List.mem_cons_self p rest)) hinv) i

/-- `insert_desc` only permutes: inserting is a cons up to permutation. -/
theorem insert_desc_perm (x : Row) (l : List Row) :
    (insert_desc x l).Perm (x :: l) := by
  induction l with
  | nil => simp [insert_desc]
  | cons y ys ih =>
      rw [insert_desc]
      split_ifs
      · exact List.Perm.refl _
      · exact (ih.cons y).trans (List.Perm.swap x y ys)

/-- The points-descending sort only permutes the rows. -/
theorem sort_desc_perm (l : List Row) : (sort_desc l).Perm l := by
  induction l with
  | nil => simp [sort_desc]
  | cons x xs ih => exact (insert_desc_perm x (sort_desc xs)).trans (ih.cons x)

/-- C6: starting from a fresh roster and applying any sequence of
`play_match` calls in which every winner is a participant of its match and
no match is played twice, every row of a successful `get_standings` has
`win_rate = matches_won / matches_played` when `matches_played > 0` and
exactly `0` when `matches_played = 0` (no division fault is possible), and
the win rate always lies in `[0, 1]`. -/
theorem c6_win_rate_bounds (r : ℕ → ℚ) (roster : List ℕ)
    (plays : List (Match × ℕ))
    (hp : ∀ p ∈ plays, p.2 = p.1.team1 ∨ p.2 = p.1.team2)
    (honce : (plays.map Prod.fst).Nodup) :
    ∀ rows, get_standings (run_plays (init_heap r) plays) roster = Except.ok rows →
    ∀ row ∈ rows,
      row.win_rate = (if 0 < row.matches_played then
        (row.matches_won : ℚ) / (row.matches_played : ℚ) else 0) ∧
      (row.matches_played = 0 → row.win_rate = 0) ∧
      0 ≤ row.win_rate ∧ row.win_rate ≤ 1 := by
  intro rows hrows row hrow
  have hinv : ∀ i, ((run_plays (init_heap r) plays) i).matches_won
      ≤ ((run_plays (init_heap r) plays) i).matches_played :=
    run_plays_won_le_played plays (init_heap r) hp
      (fun i => by simp [init_heap])
  rcases roster with _ | ⟨a, rest⟩
  · simp [get_standings] at hrows
  · injection hrows with hrows2
    rw [← hrows2] at hrow
    have hrow2 := (sort_desc_perm _).mem_iff.mp hrow
    obtain ⟨i, hi, rfl⟩ := List.mem_map.mp hrow2
    set ts := run_plays (init_heap r) plays with hts
    constructor
    · rfl
    refine ⟨fun h0 => ?_, ?_, ?_⟩
    · have h0' : (ts i).matches_played = 0 := h0
      simp [standings_row, h0']
    · rw [standings_row]
      dsimp only
      split_ifs with hpos
      · positivity
      · exact le_refl 0
    · rw [standings_row]
      dsimp only
      split_ifs with hpos
      · rw [div_le_one (by positivity)]
        exact_mod_cast hinv i
      · exact zero_le_one

/-- Witness for `c6_win_rate_bounds`: roster `[0, 1]`, all rankings 1, one
played match between teams 0 and 1 won by team 0. -/
theorem c6_win_rate_bounds_witness :
    (∀ p ∈ [(m01, 0)], p.2 = p.1.team1 ∨ p.2 = p.1.team2) ∧
    (([(m01, 0)].map Prod.fst).Nodup) ∧
    (∀ rows, get_standings (run_plays (init_heap fun _ => 1) [(m01, 0)]) [0, 1]
        = Except.ok rows →
      ∀ row ∈ rows,
        row.win_rate = (if 0 < row.matches_played then
          (row.matches_won : ℚ) / (row.matches_played : ℚ) else 0) ∧
        (row.matches_played = 0 → row.win_rate = 0) ∧
        0 ≤ row.win_rate ∧ row.win_rate ≤ 1) :=
  ⟨by decide, by decide,
   c6_win_rate_bounds (fun _ => 1) [0, 1] [(m01, 0)] (by decide) (by decide)⟩

/-! ## Counting facts for the scheduler -/

/-- Each emitted round has exactly `half` pairings. -/
theorem rr_round_length (rl : List ℕ) (half : ℕ) :
    (rr_round rl half).length = half := by
  simp [rr_round]

/-- `k` rounds of the generator loop yield `k * half` pairings. -/
theorem rr_loop_length (k : ℕ) : ∀ (rl : List ℕ) (half : ℕ),
    (rr_loop k rl half).length = k * half := by
  induction k with
  | zero => intro rl half; simp [rr_loop]
  | succ n ih =>
      intro rl half
      rw [rr_loop, List.length_append, rr_round_length, ih]
      ring

/-- On a nonempty even roster the generator succeeds with the loop's
output. -/
theorem generate_rr_ok (a : ℕ) (rest : List ℕ)
    (h2 : (a :: rest).length % 2 = 0) :
    generate_round_robin_matches (a :: rest)
      = Except.ok (rr_loop ((a :: rest).length - 1) rest
          ((a :: rest).length / 2)) := by
  rw [generate_round_robin_matches, if_neg (by omega)]

/-- The number of slice starts used by `pychunks` on an exactly divisible
length. -/
theorem chunk_count (k m : ℕ) (hk : 0 < k) : (m * k + k - 1) / k = m := by
  have h1 : m * k + k - 1 = k * m + (k - 1) := by rw [Nat.mul_comm m k]; omega
  rw [h1, Nat.mul_add_div hk, Nat.div_eq_of_lt (by omega)]
  omega

/-- `pychunks` splits a list of length `m * k` into `m` chunks. -/
theorem pychunks_length (k : ℕ) (l : List (ℕ × ℕ)) (m : ℕ) (hk : 0 < k)
    (hl : l.length = m * k) : (pychunks k l).length = m := by
  simp only [pychunks, List.length_map, List.length_range, hl]
  exact chunk_count k m hk

/-- Every chunk of a list of length `m * k` has length `k`. -/
theorem pychunks_mem_length (k : ℕ) (l : List (ℕ × ℕ)) (m : ℕ) (hk : 0 < k)
    (hl : l.length = m * k) : ∀ c ∈ pychunks k l, c.length = k := by
  intro c hc
  simp only [pychunks, List.mem_map, List.mem_range, hl, chunk_count k m hk] at hc
  obtain ⟨i, him, rfl⟩ := hc
  simp only [List.length_take, List.length_drop, hl]
  have hle : k ≤ m * k - i * k := by
    have hsub : m * k - i * k = (m - i) * k := (Nat.sub_mul m i k).symm
    rw [hsub]
    exact Nat.le_mul_of_pos_left k (by omega)
  omega

/-- Court assignment keeps `min num_courts (round length)` matches. -/
theorem assign_courts_length (c : ℕ) (rm : List (ℕ × ℕ)) :
    (assign_courts c rm).length = min c rm.length := by
  simp only [assign_courts, List.length_map, List.length_zip, List.length_range]
  omega

/-- The per-round scheduling loop emits one time slot per round. -/
theorem schedule_rounds_length (c : ℕ) (sh : List (ℕ × ℕ) → List (ℕ × ℕ))
    (time : ℕ) (rounds : List (List (ℕ × ℕ))) :
    (schedule_rounds c sh time rounds).length = rounds.length := by
  induction rounds generalizing time with
  | nil => rfl
  | cons rd rest ih => simp [schedule_rounds, ih]

/-- Every slot built by the scheduling loop is the court assignment of a
shuffled round. -/
theorem schedule_rounds_mem (c : ℕ) (sh : List (ℕ × ℕ) → List (ℕ × ℕ))
    (time : ℕ) (rounds : List (List (ℕ × ℕ))) :
    ∀ s ∈ schedule_rounds c sh time rounds,
      ∃ rd ∈ rounds, s.2 = assign_courts c (sh rd) := by
  induction rounds generalizing time with
  | nil => intro s hs; simp [schedule_rounds] at hs
  | cons rd rest ih =>
      intro s hs
      rw [schedule_rounds] at hs
      rcases List.mem_cons.mp hs with rfl | hs2
      · exact ⟨rd, List.mem_cons_self rd rest, rfl⟩
      · obtain ⟨rd2, hin, heq⟩ := ih (time + 1) s hs2
        exact ⟨rd2, List.mem_cons_of_mem rd hin, heq⟩

/-- Flattening a list of lists that all have length `c` yields
`(number of lists) * c` elements. -/
theorem flatten_const_length (L : List (List Match)) (c : ℕ)
    (h : ∀ x ∈ L, x.length = c) : L.flatten.length = L.length * c := by
  induction L with
  | nil => simp
  | cons a t ih =>
      simp only [List.flatten_cons, List.length_append, List.length_cons]
      rw [h a (List.mem_cons_self a t), ih (fun x hx => h x (List.mem_cons_of_mem a hx))]
      ring

/-- Characterisation of the success path of `generate_schedule` on a
nonempty even roster: no error, `(N-1) * min(numCourts, N/2)` new matches,
`N-1` new time slots, each new slot holding `min(numCourts, N/2)`
matches. -/
theorem generate_schedule_ok (t : Tournament) (start : ℕ)
    (sh : List (ℕ × ℕ) → List (ℕ × ℕ)) (hsh : ∀ l, (sh l).Perm l)
    (h2 : t.teams.length % 2 = 0) (hne : t.teams ≠ []) :
    (generate_schedule t start sh).2 = none ∧
    (generate_schedule t start sh).1.match_list.length
      = t.match_list.length
        + (t.teams.length - 1) * min t.num_courts (t.teams.length / 2) ∧
    (generate_schedule t start sh).1.schedule.length
      = t.schedule.length + (t.teams.length - 1) ∧
    (∀ s ∈ (generate_schedule t start sh).1.schedule.drop t.schedule.length,
      s.2.length = min t.num_courts (t.teams.length / 2)) := by
  obtain ⟨a, rest, hteams⟩ := List.exists_cons_of_ne_nil hne
  have hk : 0 < t.teams.length / 2 := by
    rw [hteams] at h2 ⊢
    simp only [List.length_cons] at h2 ⊢
    omega
  have hrr : generate_round_robin_matches t.teams
      = Except.ok (rr_loop (t.teams.length - 1) rest (t.teams.length / 2)) := by
    rw [hteams]
    exact generate_rr_ok a rest (hteams ▸ h2)
  have hlen : (rr_loop (t.teams.length - 1) rest (t.teams.length / 2)).length
      = (t.teams.length - 1) * (t.teams.length / 2) := rr_loop_length _ _ _
  have hchunks_len :
      (pychunks (t.teams.length / 2)
        (rr_loop (t.teams.length - 1) rest (t.teams.length / 2))).length
      = t.teams.length - 1 :=
    pychunks_length _ _ _ hk hlen
  have hchunks_mem := pychunks_mem_length (t.teams.length / 2)
    (rr_loop (t.teams.length - 1) rest (t.teams.length / 2))
    (t.teams.length - 1) hk hlen
  have hslot_len : ∀ s ∈ schedule_rounds t.num_courts sh start
      (pychunks (t.teams.length / 2)
        (rr_loop (t.teams.length - 1) rest (t.teams.length / 2))),
      s.2.length = min t.num_courts (t.teams.length / 2) := by
    intro s hs
    obtain ⟨rd, hrd, hseq⟩ := schedule_rounds_mem _ _ _ _ s hs
    rw [hseq, assign_courts_length, (hsh rd).length_eq, hchunks_mem rd hrd]
  have hmain : generate_schedule t start sh
      = ({ t with
            start_time := some start,
            match_list := t.match_list ++
              ((schedule_rounds t.num_courts sh start
                (pychunks (t.teams.length / 2)
                  (rr_loop (t.teams.length - 1) rest
                    (t.teams.length / 2)))).map Prod.snd).flatten,
            schedule := t.schedule ++
              schedule_rounds t.num_courts sh start
                (pychunks (t.teams.length / 2)
                  (rr_loop (t.teams.length - 1) rest (t.teams.length / 2))),
            end_time := some (start +
              (pychunks (t.teams.length / 2)
                (rr_loop (t.teams.length - 1) rest
                  (t.teams.length / 2))).length) }, none) := by
    rw [generate_schedule]
    simp only [hrr]
  rw [hmain]
  refine ⟨rfl, ?_, ?_, ?_⟩
  · simp only [List.length_append]
    rw [flatten_const_length _ (min t.num_courts (t.teams.length / 2))
        (by
          intro x hx
          obtain ⟨s, hs, rfl⟩ := List.mem_map.mp hx
          exact hslot_len s hs),
      List.length_map, schedule_rounds_length, hchunks_len]
  · simp only [List.length_append]
    rw [schedule_rounds_length, hchunks_len]
  · intro s hs
    rw [List.drop_left] at hs
    exact hslot_len s hs

/-- C4: for every even roster and court count, `generate_schedule` creates
`N(N-1)/2` matches in `N-1` slots of `N/2` matches each when
`numCourts ≥ N/2`, and when `numCourts < N/2` each slot holds exactly
`numCourts` matches, the excess pairings being dropped with no error,
for a total of `(N-1) * numCourts` new matches. -/
theorem c4_schedule_counts (t : Tournament) (start : ℕ)
    (sh : List (ℕ × ℕ) → List (ℕ × ℕ)) (hsh : ∀ l, (sh l).Perm l)
    (h2 : t.teams.length % 2 = 0) :
    (t.teams.length / 2 ≤ t.num_courts →
      (generate_schedule t start sh).1.match_list.length
        = t.match_list.length + t.teams.length * (t.teams.length - 1) / 2 ∧
      (generate_schedule t start sh).1.schedule.length
        = t.schedule.length + (t.teams.length - 1) ∧
      (∀ s ∈ (generate_schedule t start sh).1.schedule.drop t.schedule.length,
        s.2.length = t.teams.length / 2)) ∧
    (t.num_courts < t.teams.length / 2 →
      (generate_schedule t start sh).2 = none ∧
      (∀ s ∈ (generate_schedule t start sh).1.schedule.drop t.schedule.length,
        s.2.length = t.num_courts) ∧
      (generate_schedule t start sh).1.match_list.length
        = t.match_list.length + (t.teams.length - 1) * t.num_courts) := by
  by_cases hne : t.teams = []
  · constructor
    · intro _
      refine ⟨?_, ?_, ?_⟩
      · simp [generate_schedule, generate_round_robin_matches, hne]
      · simp [generate_schedule, generate_round_robin_matches, hne]
      · intro s hs
        simp only [generate_schedule, generate_round_robin_matches, hne] at hs
        simp [List.drop_length] at hs
    · intro hlt
      rw [hne] at hlt
      simp at hlt
  · have hdvd : 2 ∣ t.teams.length := Nat.dvd_of_mod_eq_zero h2
    obtain ⟨hno, hml, hsl, hslots⟩ := generate_schedule_ok t start sh hsh h2 hne
    constructor
    · intro hge
      have hmin : min t.num_courts (t.teams.length / 2) = t.teams.length / 2 :=
        min_eq_right hge
      refine ⟨?_, hsl, ?_⟩
      · rw [hml, hmin]
        have harith : t.teams.length * (t.teams.length - 1) / 2
            = (t.teams.length - 1) * (t.teams.length / 2) := by
          rw [Nat.mul_comm t.teams.length (t.teams.length - 1),
            Nat.mul_div_assoc (t.teams.length - 1) hdvd]
        rw [harith]
      · intro s hs
        rw [hslots s hs, hmin]
    · intro hlt
      have hmin : min t.num_courts (t.teams.length / 2) = t.num_courts :=
        min_eq_left (le_of_lt hlt)
      refine ⟨hno, ?_, ?_⟩
      · intro s hs
        rw [hslots s hs, hmin]
      · rw [hml, hmin]

/-- Witness for `c4_schedule_counts` on a fresh tournament with four teams
and two courts, identity shuffle, start time 9. -/
theorem c4_schedule_counts_witness :
    (∀ l : List (ℕ × ℕ), (id l).Perm l) ∧
    ((⟨"t", 2, [0, 1, 2, 3], [], [], none, none⟩ : Tournament).teams.length % 2 = 0) ∧
    (((⟨"t", 2, [0, 1, 2, 3], [], [], none, none⟩ : Tournament).teams.length / 2
        ≤ (⟨"t", 2, [0, 1, 2, 3], [], [], none, none⟩ : Tournament).num_courts →
      (generate_schedule ⟨"t", 2, [0, 1, 2, 3], [], [], none, none⟩ 9 id).1.match_list.length
        = (⟨"t", 2, [0, 1, 2, 3], [], [], none, none⟩ : Tournament).match_list.length
          + (⟨"t", 2, [0, 1, 2, 3], [], [], none, none⟩ : Tournament).teams.length
            * ((⟨"t", 2, [0, 1, 2, 3], [], [], none, none⟩ : Tournament).teams.length - 1) / 2 ∧
      (generate_schedule ⟨"t", 2, [0, 1, 2, 3], [], [], none, none⟩ 9 id).1.schedule.length
        = (⟨"t", 2, [0, 1, 2, 3], [], [], none, none⟩ : Tournament).schedule.length
          + ((⟨"t", 2, [0, 1, 2, 3], [], [], none, none⟩ : Tournament).teams.length - 1) ∧
      (∀ s ∈ (generate_schedule ⟨"t", 2, [0, 1, 2, 3], [], [], none, none⟩ 9 id).1.schedule.drop
          (⟨"t", 2, [0, 1, 2, 3], [], [], none, none⟩ : Tournament).schedule.length,
        s.2.length
          = (⟨"t", 2, [0, 1, 2, 3], [], [], none, none⟩ : Tournament).teams.length / 2)) ∧
    ((⟨"t", 2, [0, 1, 2, 3], [], [], none, none⟩ : Tournament).num_courts
        < (⟨"t", 2, [0, 1, 2, 3], [], [], none, none⟩ : Tournament).teams.length / 2 →
      (generate_schedule ⟨"t", 2, [0, 1, 2, 3], [], [], none, none⟩ 9 id).2 = none ∧
      (∀ s ∈ (generate_schedule ⟨"t", 2, [0, 1, 2, 3], [], [], none, none⟩ 9 id).1.schedule.drop
          (⟨"t", 2, [0, 1, 2, 3], [], [], none, none⟩ : Tournament).schedule.length,
        s.2.length = (⟨"t", 2, [0, 1, 2, 3], [], [], none, none⟩ : Tournament).num_courts) ∧
      (generate_schedule ⟨"t", 2, [0, 1, 2, 3], [], [], none, none⟩ 9 id).1.match_list.length
        = (⟨"t", 2, [0, 1, 2, 3], [], [], none, none⟩ : Tournament).match_list.length
          + ((⟨"t", 2, [0, 1, 2, 3], [], [], none, none⟩ : Tournament).teams.length - 1)
            * (⟨"t", 2, [0, 1, 2, 3], [], [], none, none⟩ : Tournament).num_courts)) :=
  ⟨fun l => List.Perm.refl l, by decide,
   c4_schedule_counts ⟨"t", 2, [0, 1, 2, 3], [], [], none, none⟩ 9 id
     (fun l => List.Perm.refl l) (by decide)⟩

/-! ## Python `min`/`max` pick the first extremal element -/

/-- The fold underlying `py_min_by` returns the first element of
`b :: l` attaining the minimal key. -/
theorem foldl_first_min (key : ℕ → ℚ) (l : List ℕ) : ∀ b : ℕ,
    first_min_at key (b :: l)
      (l.foldl (fun best y => if key y < key best then y else best) b) := by
  induction l with
  | nil =>
      intro b
      exact ⟨[], [], rfl, by simp, by simp⟩
  | cons y ys ih =>
      intro b
      rw [List.foldl_cons]
      by_cases hyb : key y < key b
      · rw [if_pos hyb]
        obtain ⟨l1, l2, heq, hmin, hstrict⟩ := ih y
        have hmy : key (ys.foldl (fun best z => if key z < key best then z else best) y)
            ≤ key y := hmin y (List.mem_cons_self y ys)
        refine ⟨b :: l1, l2, by rw [List.cons_append, ← heq], ?_, ?_⟩
        · intro z hz
          rcases List.mem_cons.mp hz with rfl | hz2
          · exact le_of_lt (lt_of_le_of_lt hmy hyb)
          · exact hmin z hz2
        · intro z hz
          rcases List.mem_cons.mp hz with rfl | hz2
          · exact lt_of_le_of_lt hmy hyb
          · exact hstrict z hz2
      · rw [if_neg hyb]
        have hby : key b ≤ key y := le_of_not_lt hyb
        obtain ⟨l1, l2, heq, hmin, hstrict⟩ := ih b
        rcases l1 with _ | ⟨a, l1t⟩
        · simp only [List.nil_append] at heq
          injection heq with hbm hys
          subst hys
          refine ⟨[], y :: ys, ?_, ?_, by simp⟩
          · rw [List.nil_append, ← hbm]
          · intro z hz
            rw [← hbm]
            rcases List.mem_cons.mp hz with rfl | hz2
            · exact le_refl _
            rcases List.mem_cons.mp hz2 with rfl | hz3
            · exact hby
            · have hzz := hmin z (List.mem_cons_of_mem b hz3)
              rw [← hbm] at hzz
              exact hzz
        · rw [List.cons_append] at heq
          injection heq with hba hys
          have hmb : key (ys.foldl (fun best z => if key z < key best then z else best) b)
              ≤ key b := hmin b (List.mem_cons_self b ys)
          have hmb_strict :
              key (ys.foldl (fun best z => if key z < key best then z else best) b)
              < key b := by
            have hka := hstrict a (List.mem_cons_self a l1t)
            rw [← hba] at hka
            exact hka
          refine ⟨b :: y :: l1t, l2, ?_, ?_, ?_⟩
          · rw [List.cons_append, List.cons_append]
            exact congrArg (fun l => b :: y :: l) hys
          · intro z hz
            rcases List.mem_cons.mp hz with rfl | hz2
            · exact hmb
            rcases List.mem_cons.mp hz2 with rfl | hz3
            · exact hmb.trans hby
            · exact hmin z (List.mem_cons_of_mem b hz3)
          · intro z hz
            rcases List.mem_cons.mp hz with rfl | hz2
            · exact hmb_strict
            rcases List.mem_cons.mp hz2 with rfl | hz3
            · exact lt_of_lt_of_le hmb_strict hby
            · exact hstrict z (List.mem_cons_of_mem a hz3)

/-- The fold underlying `py_max_by` returns the first element of
`b :: l` attaining the maximal key. -/
theorem foldl_first_max (key : ℕ → ℚ) (l : List ℕ) : ∀ b : ℕ,
    first_max_at key (b :: l)
      (l.foldl (fun best y => if key best < key y then y else best) b) := by
  induction l with
  | nil =>
      intro b
      exact ⟨[], [], rfl, by simp, by simp⟩
  | cons y ys ih =>
      intro b
      rw [List.foldl_cons]
      by_cases hyb : key b < key y
      · rw [if_pos hyb]
        obtain ⟨l1, l2, heq, hmax, hstrict⟩ := ih y
        have hmy : key y
            ≤ key (ys.foldl (fun best z => if key best < key z then z else best) y) :=
          hmax y (List.mem_cons_self y ys)
        refine ⟨b :: l1, l2, by rw [List.cons_append, ← heq], ?_, ?_⟩
        · intro z hz
          rcases List.mem_cons.mp hz with rfl | hz2
          · exact le_of_lt (lt_of_lt_of_le hyb hmy)
          · exact hmax z hz2
        · intro z hz
          rcases List.mem_cons.mp hz with rfl | hz2
          · exact lt_of_lt_of_le hyb hmy
          · exact hstrict z hz2
      · rw [if_neg hyb]
        have hby : key y ≤ key b := le_of_not_lt hyb
        obtain ⟨l1, l2, heq, hmax, hstrict⟩ := ih b
        rcases l1 with _ | ⟨a, l1t⟩
        · simp only [List.nil_append] at heq
          injection heq with hbm hys
          subst hys
          refine ⟨[], y :: ys, ?_, ?_, by simp⟩
          · rw [List.nil_append, ← hbm]
          · intro z hz
            rw [← hbm]
            rcases List.mem_cons.mp hz with rfl | hz2
            · exact le_refl _
            rcases List.mem_cons.mp hz2 with rfl | hz3
            · exact hby
            · have hzz := hmax z (List.mem_cons_of_mem b hz3)
              rw [← hbm] at hzz
              exact hzz
        · rw [List.cons_append] at heq
          injection heq with hba hys
          have hmb : key b
              ≤ key (ys.foldl (fun best z => if key best < key z then z else best) b) :=
            hmax b (List.mem_cons_self b ys)
          have hmb_strict : key b
              < key (ys.foldl (fun best z => if key best < key z then z else best) b) := by
            have hka := hstrict a (List.mem_cons_self a l1t)
            rw [← hba] at hka
            exact hka
          refine ⟨b :: y :: l1t, l2, ?_, ?_, ?_⟩
          · rw [List.cons_append, List.cons_append]
            exact congrArg (fun l => b :: y :: l) hys
          · intro z hz
            rcases List.mem_cons.mp hz with rfl | hz2
            · exact hmb
            rcases List.mem_cons.mp hz2 with rfl | hz3
            · exact hby.trans hmb
            · exact hmax z (List.mem_cons_of_mem b hz3)
          · intro z hz
            rcases List.mem_cons.mp hz with rfl | hz2
            · exact hmb_strict
            rcases List.mem_cons.mp hz2 with rfl | hz3
            · exact lt_of_le_of_lt hby hmb_strict
            · exact hstrict z (List.mem_cons_of_mem a hz3)

/-- C8: with at least three roster teams, `get_prizes` succeeds and awards
Champion, Runner-up and Third Place to the first, second and third roster
teams in insertion order (independent of results); Most Improved is the
team with the numerically lowest average ranking and Best Underdog the
team with the highest win rate (0 when no matches were played), both with
ties broken by roster iteration order. -/
theorem c8_prizes (ts : ℕ → Team) (roster : List ℕ)
    (h3 : 3 ≤ roster.length) :
    ∃ p : Prizes, get_prizes ts roster = Except.ok p ∧
      roster.get? 0 = some p.champion ∧
      roster.get? 1 = some p.runner_up ∧
      roster.get? 2 = some p.third_place ∧
      first_min_at (fun i => (ts i).ranking) roster p.most_improved ∧
      first_max_at (fun i => win_rate_key (ts i)) roster p.best_underdog := by
  rcases roster with _ | ⟨a, _ | ⟨b, _ | ⟨c, r⟩⟩⟩
  · simp at h3
  · simp at h3
  · simp only [List.length_cons, List.length_nil] at h3; omega
  · exact ⟨_, rfl, rfl, rfl, rfl,
      foldl_first_min (fun i => (ts i).ranking) (b :: c :: r) a,
      foldl_first_max (fun i => win_rate_key (ts i)) (b :: c :: r) a⟩

/-- Witness for `c8_prizes` on the roster `[0, 1, 2]` over the all-zero
heap. -/
theorem c8_prizes_witness :
    3 ≤ ([0, 1, 2] : List ℕ).length ∧
    (∃ p : Prizes, get_prizes ts0 [0, 1, 2] = Except.ok p ∧
      ([0, 1, 2] : List ℕ).get? 0 = some p.champion ∧
      ([0, 1, 2] : List ℕ).get? 1 = some p.runner_up ∧
      ([0, 1, 2] : List ℕ).get? 2 = some p.third_place ∧
      first_min_at (fun i => (ts0 i).ranking) [0, 1, 2] p.most_improved ∧
      first_max_at (fun i => win_rate_key (ts0 i)) [0, 1, 2] p.best_underdog) :=
  ⟨by decide, c8_prizes ts0 [0, 1, 2] (by decide)⟩

end Americano
